import Mathlib

/-!
Shallow embedding of the context-window word-sense disambiguation engine
implemented by the class `WordSenseDisambiguator` in `src/preprocessing.py`,
together with theorems checking the specification's claims about it.

Conventions of the embedding:
* Python floats are modelled as rationals (`ℚ`); the similarity values the
  taxonomy can produce are unconstrained rationals, and claims that depend on
  the taxonomy contract (scores in `[0, 1]`) take the non-negativity of
  defined similarities as a hypothesis (`simsNonneg`).
* The external lexical taxonomy (NLTK WordNet in the source) is an abstract
  collaborator `Taxonomy`, holding `wordnet.synsets(term, pos=...)`
  (`synsetsPos`), `wordnet.synsets(term)` (`synsets`) and
  `sense1.path_similarity(sense2)` (`pathSimilarity`).  `path_similarity`
  can return a score, return `None` (modeled `SimResult.undefined`), or
  raise (modeled `SimResult.fault`).
* A Python function that can raise an uncaught exception is modelled as
  `Option`-valued, `none` standing for the raised exception.
-/

set_option maxHeartbeats 1000000

namespace WSD

/-- Coarse part-of-speech classes: the four WordNet classes the source maps
Penn Treebank tags to (`wordnet.ADJ`, `wordnet.VERB`, `wordnet.NOUN`,
`wordnet.ADV`). -/
inductive PartOfSpeechClass where
  | ADJECTIVE
  | VERB
  | NOUN
  | ADVERB
deriving DecidableEq, Repr

/-- Outcome of one call to the taxonomy's `path_similarity`: a defined score,
Python `None` (the taxonomy cannot relate the two senses), or a raised
exception. -/
inductive SimResult where
  | defined (v : ℚ)
  | undefined
  | fault
deriving DecidableEq, Repr

/-- Abstract taxonomy collaborator (WordNet in the source): candidate senses
for a `(term, pos)` pair, all senses of a term, and pairwise similarity. -/
structure Taxonomy (Sense : Type) where
  synsetsPos : String → PartOfSpeechClass → List Sense
  synsets : String → List Sense
  pathSimilarity : Sense → Sense → SimResult

variable {Sense : Type}

/-- Embeds `_get_wordnet_pos` (`preprocessing.py` lines 141-145):
`self._pos_map.get(treebank_tag[0], wordnet.NOUN)`.  Python raises
`IndexError` on `treebank_tag[0]` when the tag is the empty string; the
raise is modelled by `none`. -/
def getWordnetPos (tag : String) : Option PartOfSpeechClass :=
  match tag.data with
  | [] => none
  | c :: _ =>
    some (if c = 'J' then PartOfSpeechClass.ADJECTIVE
          else if c = 'V' then PartOfSpeechClass.VERB
          else if c = 'N' then PartOfSpeechClass.NOUN
          else if c = 'R' then PartOfSpeechClass.ADVERB
          else PartOfSpeechClass.NOUN)

/-- Embeds `_safe_similarity` (`preprocessing.py` lines 131-139):
`try: s = sense1.path_similarity(sense2); return s if s is not None else 0.0
except Exception: return None`.  Note the source coerces a `None` similarity
to `0.0` and only a raised exception becomes Python `None`. -/
def safeSimilarity (tax : Taxonomy Sense) (sense1 sense2 : Sense) : Option ℚ :=
  match tax.pathSimilarity sense1 sense2 with
  | SimResult.defined v => some v
  | SimResult.undefined => some 0
  | SimResult.fault => none

/-- The list of values entering the per-context-term `max(..., default=0.0)`
aggregation in `_compute_context_score` (`preprocessing.py` lines 122-127):
`(similarity for context_sense in wordnet.synsets(context_term)
  if (similarity := self._safe_similarity(sense, context_sense)) is not None)`. -/
def termSims (tax : Taxonomy Sense) (sense : Sense) (contextTerm : String) : List ℚ :=
  (tax.synsets contextTerm).filterMap (fun cs => safeSimilarity tax sense cs)

/-- Python's `max(iterable, default=d)`: the greatest element of the list, or
`d` when the list is empty. -/
def maxOrDefault (l : List ℚ) (d : ℚ) : ℚ :=
  match l with
  | [] => d
  | x :: xs => xs.foldl max x

/-- Embeds `_compute_context_score` (`preprocessing.py` lines 118-129): the
sum over the context terms of the per-term maximum (default `0.0`). -/
def contextScore (tax : Taxonomy Sense) (sense : Sense) (ctx : List String) : ℚ :=
  (ctx.map (fun t => maxOrDefault (termSims tax sense t) 0)).sum

/-- Embeds the context-window construction of `_find_best_sense`
(`preprocessing.py` lines 106-108):
`start = max(0, idx - 5); end = min(len(tagged_terms), idx + 6);
context_terms = [t for t, _ in tagged_terms[start:end] if t != term]`.
Natural-number subtraction gives `max 0 (idx - 5)` for free. -/
def contextTerms (taggedTerms : List (String × String)) (idx : ℕ) (term : String) :
    List String :=
  (((taggedTerms.take (min taggedTerms.length (idx + 6))).drop (idx - 5)).map
      Prod.fst).filter (fun t => t ≠ term)

/-- Embeds the candidate loop of `_find_best_sense` (`preprocessing.py`
lines 102-115): the running pair is `(best_sense, max_score)`, initially
`(None, 0.0)`, updated whenever `context_score > max_score`. -/
def findBestSenseLoop (tax : Taxonomy Sense) (ctx : List String) :
    List Sense → Option Sense × ℚ → Option Sense × ℚ
  | [], acc => acc
  | sense :: rest, (best, maxScore) =>
    let cs := contextScore tax sense ctx
    if maxScore < cs then findBestSenseLoop tax ctx rest (some sense, cs)
    else findBestSenseLoop tax ctx rest (best, maxScore)

/-- Embeds `_find_best_sense` (`preprocessing.py` lines 96-116).  The outer
`Option` is the exception channel (only `_get_wordnet_pos` can raise here);
the inner `Option Sense` is the function's `Optional` return value. -/
def findBestSense (tax : Taxonomy Sense) (term tag : String)
    (taggedTerms : List (String × String)) (idx : ℕ) : Option (Option Sense) :=
  match getWordnetPos tag with
  | none => none
  | some pos =>
    some (findBestSenseLoop tax (contextTerms taggedTerms idx term)
            (tax.synsetsPos term pos) (none, 0)).1

/-- Recursion of `disambiguate` (`preprocessing.py` lines 82-94) over the
tagged sequence, carrying the running index; an exception in any iteration
aborts the whole call (`none`). -/
def disambiguateAux (tax : Taxonomy Sense) (taggedTerms : List (String × String)) :
    ℕ → List (String × String) → Option (List (String × Option Sense))
  | _, [] => some []
  | idx, (term, tag) :: rest =>
    match findBestSense tax term tag taggedTerms idx with
    | none => none
    | some best =>
      match disambiguateAux tax taggedTerms (idx + 1) rest with
      | none => none
      | some results => some ((term, best) :: results)

/-- Embeds the driver `disambiguate` (`preprocessing.py` lines 82-94), taken
from the point where the external tagger has produced the tagged-term
sequence: one `(term, sense-or-none)` result per input position, in order. -/
def disambiguate (tax : Taxonomy Sense) (taggedTerms : List (String × String)) :
    Option (List (String × Option Sense)) :=
  disambiguateAux tax taggedTerms 0 taggedTerms

/-- Modelled from the spec (section 4.1), for refinement comparison with
`contextTerms`: the surface forms of the terms at positions in the half-open
range `[max(0, i-5), min(N, i+6))` excluding position `i` itself, in
sequence order. -/
def specContextWindow (taggedTerms : List (String × String)) (idx : ℕ) : List String :=
  (((taggedTerms.take (min taggedTerms.length (idx + 6))).drop (idx - 5)).map
      Prod.fst).eraseIdx (idx - (idx - 5))

/-- Modelled from the spec (section 4.2, step 2.b), for comparison with the
source's aggregation: the defined (non-`undefined`, non-faulting)
similarities between a candidate and the senses of one context term. -/
def definedSims (tax : Taxonomy Sense) (sense : Sense) (contextTerm : String) : List ℚ :=
  (tax.synsets contextTerm).filterMap (fun cs =>
    match tax.pathSimilarity sense cs with
    | SimResult.defined v => some v
    | _ => none)

/-- Modelled from the spec (section 4.2, step 2): sum over the context terms
of the maximum of the defined similarities, `0` when there are none. -/
def specContextScore (tax : Taxonomy Sense) (sense : Sense) (ctx : List String) : ℚ :=
  (ctx.map (fun t => maxOrDefault (definedSims tax sense t) 0)).sum

/-- Taxonomy contract from the spec's data model (section 3): every defined
similarity score is non-negative (the spec requires scores in `[0, 1]`). -/
def simsNonneg (tax : Taxonomy Sense) : Prop :=
  ∀ s1 s2 v, tax.pathSimilarity s1 s2 = SimResult.defined v → 0 ≤ v

/-- Number of `_safe_similarity` invocations performed by
`_compute_context_score` for one candidate sense: one per pair of a context
term occurrence and a sense of that context term. -/
def simCallsScore (tax : Taxonomy Sense) (ctx : List String) : ℕ :=
  (ctx.map (fun t => (tax.synsets t).length)).sum

/-- Number of `_safe_similarity` invocations performed by one
`_find_best_sense` call: one `_compute_context_score` per candidate sense. -/
def simCallsFind (tax : Taxonomy Sense) (term tag : String)
    (taggedTerms : List (String × String)) (idx : ℕ) : ℕ :=
  match getWordnetPos tag with
  | none => 0
  | some pos =>
    ((tax.synsetsPos term pos).map
      (fun _ => simCallsScore tax (contextTerms taggedTerms idx term))).sum

/-! Helper lemmas about lists and folds. -/

theorem filter_ne_eraseIdx (a : String) :
    ∀ (l : List String) (k : ℕ) (hk : k < l.length), l.get ⟨k, hk⟩ = a →
      (l.eraseIdx k).filter (fun t => t ≠ a) = l.filter (fun t => t ≠ a) := by
  intro l
  induction l with
  | nil => intro k hk; simp at hk
  | cons x xs ih =>
    intro k hk hget
    cases k with
    | zero =>
      have hx : x = a := hget
      subst hx
      simp [List.eraseIdx_cons_zero, List.filter_cons]
    | succ k =>
      have hk' : k < xs.length := by simpa using hk
      have hget' : xs.get ⟨k, hk'⟩ = a := hget
      rw [List.eraseIdx_cons_succ, List.filter_cons, List.filter_cons,
        ih k hk' hget']

theorem le_foldl_max (l : List ℚ) : ∀ a : ℚ, a ≤ l.foldl max a := by
  induction l with
  | nil => intro a; exact le_refl a
  | cons x xs ih =>
    intro a
    exact le_trans (le_max_left a x) (ih (max a x))

theorem mem_le_foldl_max (l : List ℚ) : ∀ a x, x ∈ l → x ≤ l.foldl max a := by
  induction l with
  | nil => intro a x hx; simp at hx
  | cons y ys ih =>
    intro a x hx
    rcases List.mem_cons.mp hx with h | h
    · subst h
      exact le_trans (le_max_right a x) (le_foldl_max ys (max a x))
    · exact ih (max a y) x h

theorem maxOrDefault_eq_foldl (l : List ℚ) (h : ∀ x ∈ l, 0 ≤ x) :
    maxOrDefault l 0 = l.foldl max 0 := by
  cases l with
  | nil => rfl
  | cons x xs =>
    have hx : max 0 x = x := max_eq_right (h x (List.mem_cons_self x xs))
    simp [maxOrDefault, List.foldl_cons, hx]

theorem termSims_nonneg (tax : Taxonomy Sense) (hnn : simsNonneg tax) (sense : Sense)
    (t : String) : ∀ x ∈ termSims tax sense t, 0 ≤ x := by
  intro x hx
  rcases List.mem_filterMap.mp hx with ⟨cs, _, hcs⟩
  unfold safeSimilarity at hcs
  cases h : tax.pathSimilarity sense cs with
  | defined v =>
    rw [h] at hcs
    cases hcs
    exact hnn sense cs x h
  | undefined =>
    rw [h] at hcs
    cases hcs
    exact le_refl 0
  | fault => rw [h] at hcs; cases hcs

theorem definedSims_nonneg (tax : Taxonomy Sense) (hnn : simsNonneg tax) (sense : Sense)
    (t : String) : ∀ x ∈ definedSims tax sense t, 0 ≤ x := by
  intro x hx
  rcases List.mem_filterMap.mp hx with ⟨cs, _, hcs⟩
  cases h : tax.pathSimilarity sense cs with
  | defined v =>
    rw [h] at hcs
    cases hcs
    exact hnn sense cs x h
  | undefined => rw [h] at hcs; cases hcs
  | fault => rw [h] at hcs; cases hcs

theorem foldl_code_eq_foldl_spec (tax : Taxonomy Sense) (sense : Sense) :
    ∀ (senses : List Sense) (a : ℚ), 0 ≤ a →
      (senses.filterMap (fun cs => safeSimilarity tax sense cs)).foldl max a =
      (senses.filterMap (fun cs =>
        match tax.pathSimilarity sense cs with
        | SimResult.defined v => some v
        | _ => none)).foldl max a := by
  intro senses
  induction senses with
  | nil => intro a _; rfl
  | cons cs rest ih =>
    intro a ha
    cases h : tax.pathSimilarity sense cs with
    | defined v =>
      simp only [List.filterMap_cons, safeSimilarity, h, List.foldl_cons]
      exact ih (max a v) (le_trans ha (le_max_left a v))
    | undefined =>
      simp only [List.filterMap_cons, safeSimilarity, h, List.foldl_cons]
      rw [max_eq_left ha]
      exact ih a ha
    | fault =>
      simp only [List.filterMap_cons, safeSimilarity, h]
      exact ih a ha

theorem termContribution_eq (tax : Taxonomy Sense) (hnn : simsNonneg tax)
    (sense : Sense) (t : String) :
    maxOrDefault (termSims tax sense t) 0 = maxOrDefault (definedSims tax sense t) 0 := by
  rw [maxOrDefault_eq_foldl _ (termSims_nonneg tax hnn sense t),
    maxOrDefault_eq_foldl _ (definedSims_nonneg tax hnn sense t)]
  exact foldl_code_eq_foldl_spec tax sense (tax.synsets t) 0 (le_refl 0)

theorem termContribution_nonneg (tax : Taxonomy Sense) (hnn : simsNonneg tax)
    (sense : Sense) (t : String) : 0 ≤ maxOrDefault (termSims tax sense t) 0 := by
  rw [maxOrDefault_eq_foldl _ (termSims_nonneg tax hnn sense t)]
  exact le_foldl_max _ 0

theorem contextScore_eq_spec (tax : Taxonomy Sense) (hnn : simsNonneg tax)
    (sense : Sense) (ctx : List String) :
    contextScore tax sense ctx = specContextScore tax sense ctx := by
  unfold contextScore specContextScore
  congr 1
  exact List.map_congr_left (fun t _ => termContribution_eq tax hnn sense t)

theorem contextScore_nonneg (tax : Taxonomy Sense) (hnn : simsNonneg tax)
    (sense : Sense) (ctx : List String) : 0 ≤ contextScore tax sense ctx := by
  unfold contextScore
  apply List.sum_nonneg
  intro x hx
  rcases List.mem_map.mp hx with ⟨t, _, ht⟩
  rw [← ht]
  exact termContribution_nonneg tax hnn sense t

/-! Lemmas about the candidate loop of `_find_best_sense`. -/

theorem loop_snd_eq_foldl (tax : Taxonomy Sense) (ctx : List String) :
    ∀ (senses : List Sense) (b : Option Sense) (m : ℚ),
      (findBestSenseLoop tax ctx senses (b, m)).2 =
        (senses.map (fun s => contextScore tax s ctx)).foldl max m := by
  intro senses
  induction senses with
  | nil => intro b m; rfl
  | cons s rest ih =>
    intro b m
    by_cases h : m < contextScore tax s ctx
    · simp only [findBestSenseLoop, if_pos h, List.map_cons, List.foldl_cons]
      rw [ih, max_eq_right (le_of_lt h)]
    · simp only [findBestSenseLoop, if_neg h, List.map_cons, List.foldl_cons]
      rw [ih, max_eq_left (le_of_not_lt h)]

theorem loop_no_update (tax : Taxonomy Sense) (ctx : List String) :
    ∀ (senses : List Sense) (b : Option Sense) (m : ℚ),
      (∀ s ∈ senses, contextScore tax s ctx ≤ m) →
      findBestSenseLoop tax ctx senses (b, m) = (b, m) := by
  intro senses
  induction senses with
  | nil => intro b m _; rfl
  | cons s rest ih =>
    intro b m hle
    have hs : ¬ m < contextScore tax s ctx :=
      not_lt_of_le (hle s (List.mem_cons_self s rest))
    simp only [findBestSenseLoop, if_neg hs]
    exact ih b m (fun x hx => hle x (List.mem_cons_of_mem s hx))

theorem loop_first_winner (tax : Taxonomy Sense) (ctx : List String) :
    ∀ (senses : List Sense) (b : Option Sense) (m : ℚ),
      (∃ s ∈ senses, m < contextScore tax s ctx) →
      ∃ i, ∃ h : i < senses.length,
        (findBestSenseLoop tax ctx senses (b, m)).1 = some (senses.get ⟨i, h⟩) ∧
        contextScore tax (senses.get ⟨i, h⟩) ctx =
          (findBestSenseLoop tax ctx senses (b, m)).2 ∧
        m < contextScore tax (senses.get ⟨i, h⟩) ctx ∧
        ∀ j, ∀ hj : j < i,
          contextScore tax (senses.get ⟨j, lt_trans hj h⟩) ctx <
            contextScore tax (senses.get ⟨i, h⟩) ctx := by
  intro senses
  induction senses with
  | nil => intro b m h; simp at h
  | cons s rest ih =>
    intro b m hex
    by_cases hs : m < contextScore tax s ctx
    · simp only [findBestSenseLoop, if_pos hs]
      by_cases hr : ∃ x ∈ rest, contextScore tax s ctx < contextScore tax x ctx
      · obtain ⟨i, h, h1, h2, h3, h4⟩ := ih (some s) (contextScore tax s ctx) hr
        refine ⟨i + 1, by simpa using Nat.succ_lt_succ h, ?_, ?_, ?_, ?_⟩
        · simpa using h1
        · simpa using h2
        · simpa using lt_trans hs h3
        · intro j hj
          cases j with
          | zero => simpa using h3
          | succ j => simpa using h4 j (by omega)
      · push_neg at hr
        rw [loop_no_update tax ctx rest (some s) (contextScore tax s ctx) hr]
        exact ⟨0, by simp, rfl, rfl, hs, fun j hj => absurd hj (Nat.not_lt_zero j)⟩
    · simp only [findBestSenseLoop, if_neg hs]
      have hr : ∃ x ∈ rest, m < contextScore tax x ctx := by
        obtain ⟨x, hx, hmx⟩ := hex
        rcases List.mem_cons.mp hx with h | h
        · subst h; exact absurd hmx hs
        · exact ⟨x, h, hmx⟩
      obtain ⟨i, h, h1, h2, h3, h4⟩ := ih b m hr
      refine ⟨i + 1, by simpa using Nat.succ_lt_succ h, ?_, ?_, ?_, ?_⟩
      · simpa using h1
      · simpa using h2
      · simpa using h3
      · intro j hj
        cases j with
        | zero =>
          simp only [List.get]
          exact lt_of_le_of_lt (le_of_not_lt hs) h3
        | succ j => simpa using h4 j (by omega)

/-! Facts about the window slice. -/

theorem sliceFst_length (tagged : List (String × String)) (idx : ℕ) :
    (((tagged.take (min tagged.length (idx + 6))).drop (idx - 5)).map Prod.fst).length =
      min tagged.length (idx + 6) - (idx - 5) := by
  simp only [List.length_map, List.length_drop, List.length_take]
  omega

theorem sliceFst_target_lt (tagged : List (String × String)) (idx : ℕ)
    (h : idx < tagged.length) :
    idx - (idx - 5) <
      (((tagged.take (min tagged.length (idx + 6))).drop (idx - 5)).map Prod.fst).length := by
  rw [sliceFst_length]
  omega

theorem sliceFst_target_get (tagged : List (String × String)) (idx : ℕ)
    (h : idx < tagged.length) :
    (((tagged.take (min tagged.length (idx + 6))).drop (idx - 5)).map Prod.fst).get
        ⟨idx - (idx - 5), sliceFst_target_lt tagged idx h⟩ =
      (tagged.get ⟨idx, h⟩).1 := by
  rw [List.get_eq_getElem, List.get_eq_getElem]
  simp only [List.getElem_map, List.getElem_drop, List.getElem_take]
  congr 1
  simp only [show idx - 5 + (idx - (idx - 5)) = idx from by omega]

theorem specWindow_length_zero (tagged : List (String × String))
    (h1 : 1 < tagged.length) :
    (specContextWindow tagged 0).length = min 5 (tagged.length - 1) := by
  unfold specContextWindow
  rw [List.length_eraseIdx]
  simp only [List.length_map, List.length_drop, List.length_take]
  split_ifs <;> omega

/-- C1: the claim states the context window for position `i` holds the
surface forms of the whole window slice with only position `i` removed, and
that at index `0` its size is exactly `min 5 (N-1)`.  The source instead
removes every position whose surface form equals the target's surface form
(`if t != term`).  This theorem proves the amended claim: the code's window
is the spec's window further filtered by surface-form inequality with the
target; the two agree — and the index-0 size is exactly `min 5 (N-1)` —
whenever the target's surface form occurs nowhere else in the slice. -/
theorem C1_contextWindow (tagged : List (String × String)) (idx : ℕ)
    (h : idx < tagged.length) :
    contextTerms tagged idx (tagged.get ⟨idx, h⟩).1 =
      (specContextWindow tagged idx).filter (fun t => t ≠ (tagged.get ⟨idx, h⟩).1) ∧
    ((tagged.get ⟨idx, h⟩).1 ∉ specContextWindow tagged idx →
      contextTerms tagged idx (tagged.get ⟨idx, h⟩).1 = specContextWindow tagged idx) ∧
    (idx = 0 → 1 < tagged.length →
      (tagged.get ⟨idx, h⟩).1 ∉ specContextWindow tagged idx →
      (contextTerms tagged idx (tagged.get ⟨idx, h⟩).1).length =
        min 5 (tagged.length - 1)) := by
  have part1 : contextTerms tagged idx (tagged.get ⟨idx, h⟩).1 =
      (specContextWindow tagged idx).filter (fun t => t ≠ (tagged.get ⟨idx, h⟩).1) := by
    unfold contextTerms specContextWindow
    rw [filter_ne_eraseIdx (tagged.get ⟨idx, h⟩).1 _ _ (sliceFst_target_lt tagged idx h)
      (sliceFst_target_get tagged idx h)]
  have part2 : (tagged.get ⟨idx, h⟩).1 ∉ specContextWindow tagged idx →
      contextTerms tagged idx (tagged.get ⟨idx, h⟩).1 = specContextWindow tagged idx := by
    intro hnm
    rw [part1]
    apply List.filter_eq_self.mpr
    intro a ha
    exact decide_eq_true (fun heq => hnm (heq ▸ ha))
  refine ⟨part1, part2, ?_⟩
  intro h0 h1 hnm
  rw [part2 hnm]
  subst h0
  exact specWindow_length_zero tagged h1

/-- C1 counterexample: for the sequence `[("bank","NN"), ("bank","NN")]` at
index `0`, the code's context window is empty — the duplicate occurrence of
"bank" at position 1 is also removed — while the claim's window is
`["bank"]` with size `min 5 (N-1) = 1`. -/
theorem C1_counterexample :
    contextTerms [("bank", "NN"), ("bank", "NN")] 0 "bank" ≠
      specContextWindow [("bank", "NN"), ("bank", "NN")] 0 ∧
    (contextTerms [("bank", "NN"), ("bank", "NN")] 0 "bank").length ≠
      min 5 ([("bank", "NN"), ("bank", "NN")].length - 1) := by
  decide

/-- C1 witness: the amended claim at the concrete sequence
`[("cat","NN"), ("dog","NN"), ("fish","NN")]`, index `0`. -/
theorem C1_witness :
    ((("cat" : String) ∉ specContextWindow
        [("cat", "NN"), ("dog", "NN"), ("fish", "NN")] 0) ∧
      (contextTerms [("cat", "NN"), ("dog", "NN"), ("fish", "NN")] 0 "cat").length =
        min 5 ([("cat", "NN"), ("dog", "NN"), ("fish", "NN")].length - 1)) :=
  ⟨by decide,
    (C1_contextWindow [("cat", "NN"), ("dog", "NN"), ("fish", "NN")] 0
      (by decide)).2.2 rfl (by decide) (by decide)⟩

/-- C2: the claim states deriving the `PartOfSpeechClass` never fails for any
`pos_tag`, the empty string included.  The source indexes `treebank_tag[0]`,
which raises `IndexError` on the empty string, so the claim is amended to
non-empty tags: for every non-empty tag the derivation succeeds, tags whose
first character is `J`/`V`/`N`/`R` map to
ADJECTIVE/VERB/NOUN/ADVERB, and every other non-empty tag falls back to
NOUN. -/
theorem C2_posTag_total (tag : String) (h : tag ≠ "") :
    (getWordnetPos tag).isSome = true ∧
    (tag.data.head? = some 'J' →
      getWordnetPos tag = some PartOfSpeechClass.ADJECTIVE) ∧
    (tag.data.head? = some 'V' → getWordnetPos tag = some PartOfSpeechClass.VERB) ∧
    (tag.data.head? = some 'N' → getWordnetPos tag = some PartOfSpeechClass.NOUN) ∧
    (tag.data.head? = some 'R' →
      getWordnetPos tag = some PartOfSpeechClass.ADVERB) ∧
    (∀ c, tag.data.head? = some c → c ≠ 'J' → c ≠ 'V' → c ≠ 'N' → c ≠ 'R' →
      getWordnetPos tag = some PartOfSpeechClass.NOUN) := by
  obtain ⟨data⟩ := tag
  cases data with
  | nil => exact absurd rfl h
  | cons c cs =>
    have hs : getWordnetPos ⟨c :: cs⟩ =
        some (if c = 'J' then PartOfSpeechClass.ADJECTIVE
          else if c = 'V' then PartOfSpeechClass.VERB
          else if c = 'N' then PartOfSpeechClass.NOUN
          else if c = 'R' then PartOfSpeechClass.ADVERB
          else PartOfSpeechClass.NOUN) := rfl
    have hhead : (String.mk (c :: cs)).data.head? = some c := rfl
    refine ⟨by rw [hs]; rfl, ?_, ?_, ?_, ?_, ?_⟩
    · intro hJ
      have hc : c = 'J' := by rw [hhead] at hJ; exact Option.some.inj hJ
      subst hc
      rw [hs]
      decide
    · intro hV
      have hc : c = 'V' := by rw [hhead] at hV; exact Option.some.inj hV
      subst hc
      rw [hs]
      decide
    · intro hN
      have hc : c = 'N' := by rw [hhead] at hN; exact Option.some.inj hN
      subst hc
      rw [hs]
      decide
    · intro hR
      have hc : c = 'R' := by rw [hhead] at hR; exact Option.some.inj hR
      subst hc
      rw [hs]
      decide
    · intro c' hc' h1 h2 h3 h4
      have hc : c = c' := by rw [hhead] at hc'; exact Option.some.inj hc'
      subst hc
      rw [hs, if_neg h1, if_neg h2, if_neg h3, if_neg h4]

/-- C2 counterexample: on the empty `pos_tag` the source raises `IndexError`
(`treebank_tag[0]` on `""`), modelled as `none`: the derivation fails rather
than falling back to NOUN. -/
theorem C2_counterexample :
    getWordnetPos "" = none ∧ getWordnetPos "" ≠ some PartOfSpeechClass.NOUN := by
  decide

/-- C2 witness: the amended claim at the concrete tags `"VBZ"` (first
character `V`) and `"XX"` (unrecognized, falls back to NOUN). -/
theorem C2_witness :
    (("VBZ" : String) ≠ "" ∧ getWordnetPos "VBZ" = some PartOfSpeechClass.VERB) ∧
    (("XX" : String) ≠ "" ∧ getWordnetPos "XX" = some PartOfSpeechClass.NOUN) :=
  ⟨⟨by decide, (C2_posTag_total "VBZ" (by decide)).2.2.1 (by rfl)⟩,
    ⟨by decide, (C2_posTag_total "XX" (by decide)).2.2.2.2.2 'X' (by rfl)
      (by decide) (by decide) (by decide) (by decide)⟩⟩

theorem foldl_max_all_zero : ∀ l : List ℚ, (∀ x ∈ l, x = 0) → l.foldl max 0 = 0 := by
  intro l
  induction l with
  | nil => intro _; rfl
  | cons y ys ih =>
    intro hz
    have hy : y = 0 := hz y (List.mem_cons_self y ys)
    simp only [List.foldl_cons, hy, max_self]
    exact ih (fun x hx => hz x (List.mem_cons_of_mem y hx))

theorem maxOrDefault_all_zero (l : List ℚ) (h : ∀ x ∈ l, x = 0) :
    maxOrDefault l 0 = 0 := by
  rw [maxOrDefault_eq_foldl l (fun x hx => le_of_eq (h x hx).symm)]
  exact foldl_max_all_zero l h

/-- Concrete taxonomy whose every similarity is `undefined` (Python `None`),
with one candidate sense per `(term, pos)` query and one context sense per
term. -/
def undefTax : Taxonomy String :=
  { synsetsPos := fun _ _ => ["finance"]
    synsets := fun _ => ["riversense"]
    pathSimilarity := fun _ _ => SimResult.undefined }

/-- Concrete taxonomy with one candidate, one context sense, and constant
defined similarity `1/2`. -/
def halfTax : Taxonomy String :=
  { synsetsPos := fun _ _ => ["c"]
    synsets := fun _ => ["d"]
    pathSimilarity := fun _ _ => SimResult.defined (1/2) }

theorem halfTax_nonneg : simsNonneg halfTax := by
  intro s1 s2 v h
  have hv : (1 : ℚ)/2 = v := by
    simp only [halfTax] at h
    exact SimResult.defined.inj h
  rw [← hv]
  norm_num

/-- C3: the claim states a taxonomy-reported undefined similarity is
distinguished from zero and excluded from aggregation, never included as a
zero-valued term.  The source's `_safe_similarity` does the opposite: a
`None` from `path_similarity` is coerced to `0.0` and enters the
aggregation; only a raised exception is excluded.  Amended claim: undefined
is coerced to `0.0` and included as a zero-valued term, a raising comparison
is excluded, and — because defined similarities are non-negative and the
per-term maximum defaults to `0` — the inclusion never changes the
aggregate, which equals the spec's aggregate over defined similarities
only. -/
theorem C3_undefined_handling (tax : Taxonomy Sense) :
    (∀ s1 s2, tax.pathSimilarity s1 s2 = SimResult.undefined →
      safeSimilarity tax s1 s2 = some 0) ∧
    (∀ s1 s2, tax.pathSimilarity s1 s2 = SimResult.fault →
      safeSimilarity tax s1 s2 = none) ∧
    (simsNonneg tax → ∀ (sense : Sense) (ctx : List String),
      contextScore tax sense ctx = specContextScore tax sense ctx) := by
  refine ⟨?_, ?_, ?_⟩
  · intro s1 s2 hu
    unfold safeSimilarity
    rw [hu]
  · intro s1 s2 hf
    unfold safeSimilarity
    rw [hf]
  · intro hnn sense ctx
    exact contextScore_eq_spec tax hnn sense ctx

/-- C3 counterexample: with a taxonomy reporting every similarity as
undefined, `_safe_similarity` returns `0.0` (not the excluded `None`), and
the list of values aggregated for a context term is `[0]` — the undefined
comparison is included in the aggregation as a zero-valued term, contrary to
the claim. -/
theorem C3_counterexample :
    safeSimilarity undefTax "finance" "riversense" = some 0 ∧
    safeSimilarity undefTax "finance" "riversense" ≠ none ∧
    termSims undefTax "finance" "river" = [0] ∧
    termSims undefTax "finance" "river" ≠ [] := by
  refine ⟨rfl, by decide, rfl, by decide⟩

/-- C3 witness: the amended claim applied to `undefTax` at concrete senses. -/
theorem C3_witness :
    undefTax.pathSimilarity "finance" "riversense" = SimResult.undefined ∧
    safeSimilarity undefTax "finance" "riversense" = some 0 :=
  ⟨rfl, (C3_undefined_handling undefTax).1 "finance" "riversense" rfl⟩

/-- C4 (confirmed): under the taxonomy contract that defined similarities
are non-negative, the source's aggregate score of a candidate equals the sum
over the context terms of the maximum of the defined similarities with the
senses of that term; a context term with no senses, or all of whose
comparisons are undefined, contributes exactly `0`, and the aggregate is
never negative (nor undefined: `contextScore` is a total function). -/
theorem C4_aggregate (tax : Taxonomy Sense) (hnn : simsNonneg tax)
    (sense : Sense) (ctx : List String) :
    contextScore tax sense ctx = specContextScore tax sense ctx ∧
    0 ≤ contextScore tax sense ctx ∧
    (∀ t, tax.synsets t = [] → maxOrDefault (termSims tax sense t) 0 = 0) ∧
    (∀ t, (∀ cs ∈ tax.synsets t, tax.pathSimilarity sense cs = SimResult.undefined) →
      maxOrDefault (termSims tax sense t) 0 = 0) := by
  refine ⟨contextScore_eq_spec tax hnn sense ctx,
    contextScore_nonneg tax hnn sense ctx, ?_, ?_⟩
  · intro t ht
    simp [termSims, ht, maxOrDefault]
  · intro t ht
    apply maxOrDefault_all_zero
    intro x hx
    rcases List.mem_filterMap.mp hx with ⟨cs, hcs, hval⟩
    unfold safeSimilarity at hval
    rw [ht cs hcs] at hval
    exact (Option.some.inj hval).symm

/-- C4 witness: the aggregate facts at the concrete taxonomy `halfTax`,
candidate `"c"` and context `["river"]`. -/
theorem C4_witness :
    simsNonneg halfTax ∧
    contextScore halfTax "c" ["river"] = specContextScore halfTax "c" ["river"] ∧
    0 ≤ contextScore halfTax "c" ["river"] :=
  ⟨halfTax_nonneg, (C4_aggregate halfTax halfTax_nonneg "c" ["river"]).1,
    (C4_aggregate halfTax halfTax_nonneg "c" ["river"]).2.1⟩

theorem getWordnetPos_ne_empty (tag : String) (h : tag ≠ "") :
    ∃ pos, getWordnetPos tag = some pos := by
  obtain ⟨data⟩ := tag
  cases data with
  | nil => exact absurd rfl h
  | cons c cs => exact ⟨_, rfl⟩

theorem contextTerms_singleton (term tag : String) :
    contextTerms [(term, tag)] 0 term = [] := by
  simp [contextTerms]

theorem findBestSense_eq_loop (tax : Taxonomy Sense) (term tag : String)
    (tagged : List (String × String)) (idx : ℕ) (pos : PartOfSpeechClass)
    (hpos : getWordnetPos tag = some pos) :
    findBestSense tax term tag tagged idx =
      some (findBestSenseLoop tax (contextTerms tagged idx term)
        (tax.synsetsPos term pos) (none, 0)).1 := by
  unfold findBestSense
  rw [hpos]

theorem simCallsFind_eq (tax : Taxonomy Sense) (term tag : String)
    (tagged : List (String × String)) (idx : ℕ) (pos : PartOfSpeechClass)
    (hpos : getWordnetPos tag = some pos) :
    simCallsFind tax term tag tagged idx =
      ((tax.synsetsPos term pos).map
        (fun _ => simCallsScore tax (contextTerms tagged idx term))).sum := by
  unfold simCallsFind
  rw [hpos]

/-- Concrete taxonomy with two candidates tied at the same positive
similarity. -/
def tieTax : Taxonomy String :=
  { synsetsPos := fun _ _ => ["first", "second"]
    synsets := fun _ => ["ctxsense"]
    pathSimilarity := fun _ _ => SimResult.defined 1 }

/-- Concrete taxonomy with no candidate senses for any query. -/
def emptyTax : Taxonomy String :=
  { synsetsPos := fun _ _ => []
    synsets := fun _ => ["s"]
    pathSimilarity := fun _ _ => SimResult.fault }

/-- C5: the claim states the selector always returns the best-scoring
candidate (first in enumeration order under ties) whenever the candidate set
is non-empty.  The source returns `None` when the maximal score is `0`
(`max_score` starts at `0.0` and only a strictly greater score updates
`best_sense`), so the claim is amended with the proviso that some candidate
scores strictly above `0`: then the selector returns the first candidate
attaining the maximal aggregate score — every candidate scores at most the
winner and every candidate enumerated before the winner scores strictly
less. -/
theorem C5_selector (tax : Taxonomy Sense) (term tag : String)
    (tagged : List (String × String)) (idx : ℕ) (pos : PartOfSpeechClass)
    (hpos : getWordnetPos tag = some pos)
    (hex : ∃ s ∈ tax.synsetsPos term pos,
      0 < contextScore tax s (contextTerms tagged idx term)) :
    ∃ i, ∃ h : i < (tax.synsetsPos term pos).length,
      findBestSense tax term tag tagged idx =
        some (some ((tax.synsetsPos term pos).get ⟨i, h⟩)) ∧
      (∀ s ∈ tax.synsetsPos term pos,
        contextScore tax s (contextTerms tagged idx term) ≤
          contextScore tax ((tax.synsetsPos term pos).get ⟨i, h⟩)
            (contextTerms tagged idx term)) ∧
      ∀ j, ∀ hj : j < i,
        contextScore tax ((tax.synsetsPos term pos).get ⟨j, lt_trans hj h⟩)
            (contextTerms tagged idx term) <
          contextScore tax ((tax.synsetsPos term pos).get ⟨i, h⟩)
            (contextTerms tagged idx term) := by
  obtain ⟨i, h, h1, h2, h3, h4⟩ :=
    loop_first_winner tax (contextTerms tagged idx term)
      (tax.synsetsPos term pos) none 0 hex
  refine ⟨i, h, ?_, ?_, h4⟩
  · unfold findBestSense
    rw [hpos]
    exact congrArg some h1
  · intro s hs
    rw [h2, loop_snd_eq_foldl]
    exact mem_le_foldl_max _ 0 _
      (List.mem_map_of_mem (fun s => contextScore tax s (contextTerms tagged idx term)) hs)

/-- C5 counterexample: with a non-empty candidate set (`["finance"]`) whose
only candidate — trivially the best-scoring one — scores `0` (every
similarity undefined), the selector returns `None` instead of that
candidate. -/
theorem C5_counterexample :
    undefTax.synsetsPos "bank" PartOfSpeechClass.NOUN = ["finance"] ∧
    findBestSense undefTax "bank" "NN" [("bank", "NN"), ("river", "NN")] 0 =
      some none ∧
    findBestSense undefTax "bank" "NN" [("bank", "NN"), ("river", "NN")] 0 ≠
      some (some "finance") := by
  have hctx : contextTerms [("bank", "NN"), ("river", "NN")] 0 "bank" = ["river"] := by
    decide
  have hscore : ∀ s ∈ undefTax.synsetsPos "bank" PartOfSpeechClass.NOUN,
      contextScore undefTax s
        (contextTerms [("bank", "NN"), ("river", "NN")] 0 "bank") ≤ 0 := by
    intro s _
    rw [hctx]
    simp [contextScore, termSims, safeSimilarity, undefTax, maxOrDefault]
  have hfb : findBestSense undefTax "bank" "NN"
      [("bank", "NN"), ("river", "NN")] 0 = some none := by
    rw [findBestSense_eq_loop undefTax "bank" "NN"
        [("bank", "NN"), ("river", "NN")] 0 PartOfSpeechClass.NOUN rfl,
      loop_no_update undefTax (contextTerms [("bank", "NN"), ("river", "NN")] 0 "bank")
        (undefTax.synsetsPos "bank" PartOfSpeechClass.NOUN) none 0 hscore]
  refine ⟨rfl, hfb, ?_⟩
  rw [hfb]
  decide

/-- C5 witness: the amended claim at `tieTax`, where the two candidates
`"first"` and `"second"` tie at the positive score `1`; the winner is a
candidate that everyone before it (nobody) beats. -/
theorem C5_witness :
    getWordnetPos "NN" = some PartOfSpeechClass.NOUN ∧
    (∃ s ∈ tieTax.synsetsPos "bank" PartOfSpeechClass.NOUN,
      0 < contextScore tieTax s
        (contextTerms [("bank", "NN"), ("river", "NN")] 0 "bank")) ∧
    ∃ i, ∃ h : i < (tieTax.synsetsPos "bank" PartOfSpeechClass.NOUN).length,
      findBestSense tieTax "bank" "NN" [("bank", "NN"), ("river", "NN")] 0 =
        some (some ((tieTax.synsetsPos "bank" PartOfSpeechClass.NOUN).get ⟨i, h⟩)) ∧
      (∀ s ∈ tieTax.synsetsPos "bank" PartOfSpeechClass.NOUN,
        contextScore tieTax s
            (contextTerms [("bank", "NN"), ("river", "NN")] 0 "bank") ≤
          contextScore tieTax
            ((tieTax.synsetsPos "bank" PartOfSpeechClass.NOUN).get ⟨i, h⟩)
            (contextTerms [("bank", "NN"), ("river", "NN")] 0 "bank")) ∧
      ∀ j, ∀ hj : j < i,
        contextScore tieTax
            ((tieTax.synsetsPos "bank" PartOfSpeechClass.NOUN).get
              ⟨j, lt_trans hj h⟩)
            (contextTerms [("bank", "NN"), ("river", "NN")] 0 "bank") <
          contextScore tieTax
            ((tieTax.synsetsPos "bank" PartOfSpeechClass.NOUN).get ⟨i, h⟩)
            (contextTerms [("bank", "NN"), ("river", "NN")] 0 "bank") := by
  have hctx : contextTerms [("bank", "NN"), ("river", "NN")] 0 "bank" = ["river"] := by
    decide
  have hscore : contextScore tieTax "first" ["river"] = 1 := by
    simp [contextScore, termSims, safeSimilarity, tieTax, maxOrDefault]
  have hex : ∃ s ∈ tieTax.synsetsPos "bank" PartOfSpeechClass.NOUN,
      0 < contextScore tieTax s
        (contextTerms [("bank", "NN"), ("river", "NN")] 0 "bank") := by
    refine ⟨"first", by decide, ?_⟩
    rw [hctx, hscore]
    norm_num
  exact ⟨rfl, hex, C5_selector tieTax "bank" "NN" [("bank", "NN"), ("river", "NN")] 0
    PartOfSpeechClass.NOUN rfl hex⟩

/-- C6 (confirmed): when every candidate's aggregate score is at most `0` —
in particular whenever the context set is empty, and so for the unique term
of a length-1 sequence — the result is `None` rather than any candidate
sense. -/
theorem C6_zero_score_none (tax : Taxonomy Sense) :
    (∀ (term tag : String) (tagged : List (String × String)) (idx : ℕ)
      (pos : PartOfSpeechClass), getWordnetPos tag = some pos →
      (∀ s ∈ tax.synsetsPos term pos,
        contextScore tax s (contextTerms tagged idx term) ≤ 0) →
      findBestSense tax term tag tagged idx = some none) ∧
    (∀ term tag : String, tag ≠ "" →
      findBestSense tax term tag [(term, tag)] 0 = some none) ∧
    (∀ term tag : String, tag ≠ "" →
      disambiguate tax [(term, tag)] = some [(term, none)]) := by
  have part1 : ∀ (term tag : String) (tagged : List (String × String)) (idx : ℕ)
      (pos : PartOfSpeechClass), getWordnetPos tag = some pos →
      (∀ s ∈ tax.synsetsPos term pos,
        contextScore tax s (contextTerms tagged idx term) ≤ 0) →
      findBestSense tax term tag tagged idx = some none := by
    intro term tag tagged idx pos hpos hle
    rw [findBestSense_eq_loop tax term tag tagged idx pos hpos,
      loop_no_update tax (contextTerms tagged idx term)
        (tax.synsetsPos term pos) none 0 hle]
  have part2 : ∀ term tag : String, tag ≠ "" →
      findBestSense tax term tag [(term, tag)] 0 = some none := by
    intro term tag htag
    obtain ⟨pos, hpos⟩ := getWordnetPos_ne_empty tag htag
    apply part1 term tag [(term, tag)] 0 pos hpos
    intro s _
    rw [contextTerms_singleton term tag]
    exact le_of_eq rfl
  refine ⟨part1, part2, ?_⟩
  intro term tag htag
  have h2 := part2 term tag htag
  simp [disambiguate, disambiguateAux, h2]

/-- C6 witness: both parts at concrete inputs — a length-1 sequence with the
taxonomy `undefTax`. -/
theorem C6_witness :
    (("NN" : String) ≠ "") ∧
    findBestSense undefTax "word" "NN" [("word", "NN")] 0 = some none ∧
    disambiguate undefTax [("word", "NN")] = some [("word", none)] :=
  ⟨by decide, (C6_zero_score_none undefTax).2.1 "word" "NN" (by decide),
    (C6_zero_score_none undefTax).2.2 "word" "NN" (by decide)⟩

/-- C8 (confirmed): when the candidate sense set for the derived
part-of-speech class is empty, the result is `None` and no similarity
computation is invoked (the number of `_safe_similarity` calls performed by
`_find_best_sense` is `0`). -/
theorem C8_no_candidates (tax : Taxonomy Sense) (term tag : String)
    (tagged : List (String × String)) (idx : ℕ) (pos : PartOfSpeechClass)
    (hpos : getWordnetPos tag = some pos)
    (hempty : tax.synsetsPos term pos = []) :
    findBestSense tax term tag tagged idx = some none ∧
    simCallsFind tax term tag tagged idx = 0 := by
  constructor
  · rw [findBestSense_eq_loop tax term tag tagged idx pos hpos, hempty]
    rfl
  · rw [simCallsFind_eq tax term tag tagged idx pos hpos, hempty]
    rfl

/-- C8 witness: the claim at the concrete taxonomy `emptyTax`, which has no
candidate senses for any query. -/
theorem C8_witness :
    getWordnetPos "NN" = some PartOfSpeechClass.NOUN ∧
    emptyTax.synsetsPos "zzz" PartOfSpeechClass.NOUN = [] ∧
    findBestSense emptyTax "zzz" "NN" [("zzz", "NN")] 0 = some none ∧
    simCallsFind emptyTax "zzz" "NN" [("zzz", "NN")] 0 = 0 :=
  ⟨rfl, rfl,
    (C8_no_candidates emptyTax "zzz" "NN" [("zzz", "NN")] 0
      PartOfSpeechClass.NOUN rfl rfl).1,
    (C8_no_candidates emptyTax "zzz" "NN" [("zzz", "NN")] 0
      PartOfSpeechClass.NOUN rfl rfl).2⟩

theorem disambiguateAux_fst (tax : Taxonomy Sense) (tagged : List (String × String)) :
    ∀ (rest : List (String × String)) (idx : ℕ), (∀ p ∈ rest, p.2 ≠ "") →
      ∃ out, disambiguateAux tax tagged idx rest = some out ∧
        out.map Prod.fst = rest.map Prod.fst := by
  intro rest
  induction rest with
  | nil => intro idx _; exact ⟨[], rfl, rfl⟩
  | cons p rest ih =>
    intro idx hne
    obtain ⟨term, tag⟩ := p
    obtain ⟨pos, hpos⟩ :=
      getWordnetPos_ne_empty tag (hne (term, tag) (List.mem_cons_self _ _))
    obtain ⟨best, hbest⟩ : ∃ best, findBestSense tax term tag tagged idx = some best :=
      ⟨_, findBestSense_eq_loop tax term tag tagged idx pos hpos⟩
    obtain ⟨out, hout, hfst⟩ := ih (idx + 1) (fun q hq => hne q (List.mem_cons_of_mem _ hq))
    refine ⟨(term, best) :: out, ?_, ?_⟩
    · simp [disambiguateAux, hbest, hout]
    · simp [hfst]

/-- C7 (confirmed, under the tagger contract that produced tags are
non-empty — the source computes `treebank_tag[0]`, which an empty tag would
make raise): the driver's output has exactly the same length as the input
tagged sequence, and the `i`-th result's term is the `i`-th input's surface
form; no term is dropped or reordered. -/
theorem C7_order_preserved (tax : Taxonomy Sense) (tagged : List (String × String))
    (htags : ∀ p ∈ tagged, p.2 ≠ "") :
    ∃ out, disambiguate tax tagged = some out ∧
      out.length = tagged.length ∧
      out.map Prod.fst = tagged.map Prod.fst ∧
      ∀ i, ∀ hi : i < out.length, ∀ hi2 : i < tagged.length,
        (out.get ⟨i, hi⟩).1 = (tagged.get ⟨i, hi2⟩).1 := by
  obtain ⟨out, hout, hfst⟩ := disambiguateAux_fst tax tagged tagged 0 htags
  have hlen : out.length = tagged.length := by
    have := congrArg List.length hfst
    simpa using this
  refine ⟨out, hout, hlen, hfst, ?_⟩
  intro i hi hi2
  have hg := List.get_of_eq hfst ⟨i, by simpa using hi⟩
  rw [List.get_eq_getElem, List.get_eq_getElem, List.getElem_map, List.getElem_map] at hg
  exact hg

/-- C7 witness: the order-preservation facts at a concrete three-term tagged
sequence against the taxonomy `undefTax`. -/
theorem C7_witness :
    (∀ p ∈ [("old", "JJ"), ("bank", "NN"), ("river", "NN")],
      (Prod.snd p : String) ≠ "") ∧
    ∃ out, disambiguate undefTax [("old", "JJ"), ("bank", "NN"), ("river", "NN")] =
        some out ∧
      out.length = [("old", "JJ"), ("bank", "NN"), ("river", "NN")].length ∧
      out.map Prod.fst =
        [("old", "JJ"), ("bank", "NN"), ("river", "NN")].map Prod.fst ∧
      ∀ i, ∀ hi : i < out.length,
        ∀ hi2 : i < [("old", "JJ"), ("bank", "NN"), ("river", "NN")].length,
        (out.get ⟨i, hi⟩).1 =
          ([("old", "JJ"), ("bank", "NN"), ("river", "NN")].get ⟨i, hi2⟩).1 :=
  ⟨by decide,
    C7_order_preserved undefTax [("old", "JJ"), ("bank", "NN"), ("river", "NN")]
      (by decide)⟩

theorem loop_score_congr (T T2 : Taxonomy Sense) (ctx : List String)
    (h : ∀ s : Sense, contextScore T s ctx = contextScore T2 s ctx) :
    ∀ (senses : List Sense) (acc : Option Sense × ℚ),
      findBestSenseLoop T ctx senses acc = findBestSenseLoop T2 ctx senses acc := by
  intro senses
  induction senses with
  | nil => intro acc; rfl
  | cons s rest ih =>
    intro acc
    obtain ⟨b, m⟩ := acc
    simp only [findBestSenseLoop]
    rw [h s]
    split_ifs with hlt
    · exact ih (some s, contextScore T2 s ctx)
    · exact ih (b, m)

/-- C9 (confirmed): a similarity computation that raises is caught by
`_safe_similarity` and excluded from aggregation, the fault is never
propagated (`_find_best_sense` still returns a value whenever the tag is
non-empty), and the engine's result is identical to what it would be if the
taxonomy had reported those comparisons as undefined instead (under the
taxonomy contract that defined similarities are non-negative). -/
theorem C9_fault_handling (T T2 : Taxonomy Sense)
    (hsyn : T.synsets = T2.synsets) (hsynPos : T.synsetsPos = T2.synsetsPos)
    (hrel : ∀ s cs, T.pathSimilarity s cs = T2.pathSimilarity s cs ∨
      (T.pathSimilarity s cs = SimResult.fault ∧
        T2.pathSimilarity s cs = SimResult.undefined))
    (hnn : simsNonneg T) :
    (∀ s1 s2, T.pathSimilarity s1 s2 = SimResult.fault →
      safeSimilarity T s1 s2 = none) ∧
    (∀ (term tag : String) (tagged : List (String × String)) (idx : ℕ),
      findBestSense T term tag tagged idx = findBestSense T2 term tag tagged idx) ∧
    (∀ (term tag : String) (tagged : List (String × String)) (idx : ℕ),
      tag ≠ "" → (findBestSense T term tag tagged idx).isSome = true) := by
  have hnn2 : simsNonneg T2 := by
    intro s1 s2 v hv
    rcases hrel s1 s2 with heq | ⟨_, hu⟩
    · exact hnn s1 s2 v (heq.trans hv)
    · rw [hu] at hv; cases hv
  have hdef : ∀ (sense : Sense) (t : String),
      definedSims T sense t = definedSims T2 sense t := by
    intro sense t
    unfold definedSims
    rw [hsyn]
    apply List.filterMap_congr
    intro cs _
    rcases hrel sense cs with heq | ⟨hf, hu⟩
    · rw [heq]
    · rw [hf, hu]
  have hscore : ∀ (sense : Sense) (ctx : List String),
      contextScore T sense ctx = contextScore T2 sense ctx := by
    intro sense ctx
    rw [contextScore_eq_spec T hnn sense ctx, contextScore_eq_spec T2 hnn2 sense ctx]
    unfold specContextScore
    congr 1
    exact List.map_congr_left (fun t _ => by rw [hdef sense t])
  refine ⟨?_, ?_, ?_⟩
  · intro s1 s2 hf
    unfold safeSimilarity
    rw [hf]
  · intro term tag tagged idx
    cases hp : getWordnetPos tag with
    | none => unfold findBestSense; rw [hp]
    | some pos =>
      rw [findBestSense_eq_loop T term tag tagged idx pos hp,
        findBestSense_eq_loop T2 term tag tagged idx pos hp, hsynPos,
        loop_score_congr T T2 (contextTerms tagged idx term)
          (fun s => hscore s (contextTerms tagged idx term))]
  · intro term tag tagged idx htag
    obtain ⟨pos, hp⟩ := getWordnetPos_ne_empty tag htag
    rw [findBestSense_eq_loop T term tag tagged idx pos hp]
    rfl

/-- Concrete taxonomy whose every similarity computation raises. -/
def faultTax : Taxonomy String :=
  { synsetsPos := fun _ _ => ["c"]
    synsets := fun _ => ["d"]
    pathSimilarity := fun _ _ => SimResult.fault }

/-- The taxonomy `faultTax` with every raise replaced by an undefined
similarity. -/
def faultTaxU : Taxonomy String :=
  { synsetsPos := fun _ _ => ["c"]
    synsets := fun _ => ["d"]
    pathSimilarity := fun _ _ => SimResult.undefined }

/-- C9 witness: the fault-handling facts at `faultTax` against its
undefined-everywhere twin `faultTaxU`, on a concrete two-term sequence. -/
theorem C9_witness :
    simsNonneg faultTax ∧
    faultTax.pathSimilarity "c" "d" = SimResult.fault ∧
    safeSimilarity faultTax "c" "d" = none ∧
    findBestSense faultTax "bank" "NN" [("bank", "NN"), ("river", "NN")] 0 =
      findBestSense faultTaxU "bank" "NN" [("bank", "NN"), ("river", "NN")] 0 ∧
    (findBestSense faultTax "bank" "NN"
      [("bank", "NN"), ("river", "NN")] 0).isSome = true := by
  have hnn : simsNonneg faultTax := fun s1 s2 v h => SimResult.noConfusion h
  have hrel : ∀ s cs : String,
      faultTax.pathSimilarity s cs = faultTaxU.pathSimilarity s cs ∨
      (faultTax.pathSimilarity s cs = SimResult.fault ∧
        faultTaxU.pathSimilarity s cs = SimResult.undefined) :=
    fun s cs => Or.inr ⟨rfl, rfl⟩
  have hmain := C9_fault_handling faultTax faultTaxU rfl rfl hrel hnn
  exact ⟨hnn, rfl, hmain.1 "c" "d" rfl,
    hmain.2.1 "bank" "NN" [("bank", "NN"), ("river", "NN")] 0,
    hmain.2.2 "bank" "NN" [("bank", "NN"), ("river", "NN")] 0 (by decide)⟩

/-- C10 (confirmed): disambiguation is local to the window.  If position `i`
of `S` and position `i2` of `S2` carry the same `(term, tag)` pair, the
window slices around them are equal as sequences, and the target sits at the
same offset inside both slices, then `_find_best_sense` returns the same
result for both positions against the same taxonomy. -/
theorem C10_locality (tax : Taxonomy Sense) (S S2 : List (String × String))
    (i i2 : ℕ) (h : i < S.length) (h2 : i2 < S2.length)
    (hpair : S.get ⟨i, h⟩ = S2.get ⟨i2, h2⟩)
    (hslice : (S.take (min S.length (i + 6))).drop (i - 5) =
      (S2.take (min S2.length (i2 + 6))).drop (i2 - 5))
    (hoff : i - (i - 5) = i2 - (i2 - 5)) :
    findBestSense tax (S.get ⟨i, h⟩).1 (S.get ⟨i, h⟩).2 S i =
      findBestSense tax (S2.get ⟨i2, h2⟩).1 (S2.get ⟨i2, h2⟩).2 S2 i2 := by
  have hctx : ∀ x : String, contextTerms S i x = contextTerms S2 i2 x := by
    intro x
    unfold contextTerms
    rw [hslice]
  simp only [findBestSense, hpair, hctx]

/-- Seven-term sequence used to witness window locality at index 6. -/
def sevenS : List (String × String) :=
  [("t0", "N"), ("t1", "N"), ("t2", "N"), ("t3", "N"), ("t4", "N"), ("t5", "N"),
    ("t6", "N")]

/-- The window slice of `sevenS` around index 6, as its own sequence, whose
final term sits at the same offset (5) inside its own window. -/
def sixS : List (String × String) :=
  [("t1", "N"), ("t2", "N"), ("t3", "N"), ("t4", "N"), ("t5", "N"), ("t6", "N")]

/-- C10 witness: locality at the concrete sequences `sevenS` (index 6) and
`sixS` (index 5), whose windows coincide. -/
theorem C10_witness :
    (sevenS.take (min sevenS.length (6 + 6))).drop (6 - 5) =
      (sixS.take (min sixS.length (5 + 6))).drop (5 - 5) ∧
    (6 : ℕ) - (6 - 5) = 5 - (5 - 5) ∧
    findBestSense emptyTax "t6" "N" sevenS 6 = findBestSense emptyTax "t6" "N" sixS 5 := by
  have h : (6 : ℕ) < sevenS.length := by decide
  have h2 : (5 : ℕ) < sixS.length := by decide
  have hpair : sevenS.get ⟨6, h⟩ = sixS.get ⟨5, h2⟩ := by rfl
  have hmain := C10_locality emptyTax sevenS sixS 6 5 h h2 hpair (by decide) (by decide)
  have e1 : sevenS.get ⟨6, h⟩ = ("t6", "N") := by rfl
  have e2 : sixS.get ⟨5, h2⟩ = ("t6", "N") := by rfl
  rw [e1, e2] at hmain
  exact ⟨by decide, by decide, hmain⟩

example : getWordnetPos "VBZ" = some PartOfSpeechClass.VERB := by rfl
example : getWordnetPos "XY" = some PartOfSpeechClass.NOUN := by rfl
example : getWordnetPos "" = none := by rfl
example : contextTerms [("a", "NN"), ("b", "NN"), ("a", "NN")] 0 "a" = ["b"] := by decide
example : specContextWindow [("a", "NN"), ("b", "NN"), ("a", "NN")] 0 = ["b", "a"] := by
  decide
example : maxOrDefault [] 7 = 7 := by rfl
example : maxOrDefault [1, 3, 2] 0 = 3 := by decide

end WSD
